import Mathlib

/-!
Verification development for the `pictool` plugin module (`plugins.py`).

The module operates on an in-memory image buffer: a 2D table of RGBA pixels.
We embed the buffer as `List (List Pixel)` and each in-place transform as a
state-passing function returning the new buffer contents together with the
boolean "image modified" signal.  Python's `assert type(flag) == bool`
precondition checks are embedded by giving the flag parameters the type
`PyVal` (a Python runtime value) and returning `Except Image ...`, where the
`.error` case carries the buffer contents at the moment of the assertion
failure (the assertions run before any mutation, so that is the input buffer).

Python evaluates `pixel.red * 0.3 + pixel.green * 0.6 + pixel.blue * 0.1` in
IEEE-754 double precision.  Doubles in the normal range are dyadic rationals
m * 2^e with a 53-bit mantissa, and every arithmetic operation is correctly
rounded (round to nearest, ties to even).  We model a double as an integer
pair `Dy` (value `m * 2^e`) and implement correct rounding on exact integer
arithmetic, so the model is executable by kernel reduction.  Overflow and
subnormals are not modelled; all quantities reached by these computations on
conventional channel values lie well inside the normal range.
-/

namespace Pictool

/-- A pixel: four integer channels, as exposed by the external RGB object. -/
structure Pixel where
  red : ℤ
  green : ℤ
  blue : ℤ
  alpha : ℤ
deriving DecidableEq

instance : Inhabited Pixel := ⟨⟨0, 0, 0, 0⟩⟩

/-- The image buffer: an ordered list of rows of pixels. -/
abbrev Image := List (List Pixel)

/-- A Python runtime value, as far as the plugin parameter checks care:
either a bool, or something that is not a bool. -/
inductive PyVal where
  | bool (b : Bool)
  | int (n : ℤ)
  | str (s : String)
  | pynone
deriving DecidableEq

/-- Python `type(v) == bool`. -/
def PyVal.isBool : PyVal → Bool
  | .bool _ => true
  | _ => false

/-- The boolean payload of a `PyVal` (only used after `isBool` holds). -/
def PyVal.getBool : PyVal → Bool
  | .bool b => b
  | _ => false

/-- Width of the image: `len(image[0])`, as every plugin computes it. -/
def width (image : Image) : ℕ := (image.headD []).length

/-- The pixel `image[ro][co]` (with a default pixel out of bounds; the
plugins only index in bounds on rectangular buffers). -/
def get2 (image : Image) (ro co : ℕ) : Pixel := (image.getD ro []).getD co default

/-- Rectangularity invariant assumed by every plugin: all rows have the
length of the first row. -/
def Rect (image : Image) : Prop := ∀ row ∈ image, row.length = width image

instance (image : Image) : Decidable (Rect image) :=
  inferInstanceAs (Decidable (∀ row ∈ image, row.length = width image))

/-! ### IEEE-754 double-precision model on integer dyadics -/

/-- Bit length of a natural number, with explicit fuel so that recursion is
structural (kernel-reducible).  Correct for `n < 2^400`, far beyond every
quantity in these computations. -/
def bitlenAux : ℕ → ℕ → ℕ
  | 0, _ => 0
  | fuel + 1, n => if n = 0 then 0 else bitlenAux fuel (n / 2) + 1

/-- Bit length: `bitlen n = ⌊log2 n⌋ + 1` for `n > 0`, and `bitlen 0 = 0`. -/
def bitlen (n : ℕ) : ℕ := bitlenAux 400 n

/-- Round the rational `a / b` (with `b > 0`) to the nearest integer, ties to
even. -/
def rne (a b : ℤ) : ℤ :=
  let q := a.ediv b
  let r := a.emod b
  if 2 * r < b then q
  else if b < 2 * r then q + 1
  else if q % 2 = 0 then q else q + 1

/-- A double-precision value in the normal range: the dyadic rational
`m * 2^e`. -/
structure Dy where
  m : ℤ
  e : ℤ
deriving DecidableEq

/-- Round the nonnegative dyadic `m * 2^e` to 53 significant bits (round to
nearest, ties to even).  A carry to a 54-bit mantissa (`2^53`) is left as is:
the value it denotes is exact and representable. -/
def roundPos (m : ℕ) (e : ℤ) : Dy :=
  let b := bitlen m
  if b ≤ 53 then ⟨m, e⟩
  else
    let s := b - 53
    ⟨rne m (2 ^ s), e + s⟩

/-- Round the dyadic `m * 2^e` to the nearest double (ties to even); the
rounding is symmetric under negation, as in IEEE-754. -/
def roundDy (m : ℤ) (e : ℤ) : Dy :=
  if 0 ≤ m then roundPos m.toNat e
  else
    let r := roundPos (-m).toNat e
    ⟨-r.m, r.e⟩

/-- The nearest double to the rational `a / b` (`a ≥ 0`, `b > 0`, result in
the normal range).  This is how a decimal literal such as `0.3` is read by
the Python float parser. -/
def ratToDouble (a b : ℕ) : Dy :=
  if a = 0 then ⟨0, 0⟩
  else
    let e0 : ℤ := (bitlen a : ℤ) - (bitlen b : ℤ)
    let le0 : Bool :=
      if 0 ≤ e0 then decide ((b : ℤ) * 2 ^ e0.toNat ≤ (a : ℤ))
      else decide ((b : ℤ) ≤ (a : ℤ) * 2 ^ (-e0).toNat)
    let e : ℤ := if le0 then e0 else e0 - 1
    let s : ℤ := 52 - e
    let num : ℤ := if 0 ≤ s then (a : ℤ) * 2 ^ s.toNat else (a : ℤ)
    let den : ℤ := if 0 ≤ s then (b : ℤ) else (b : ℤ) * 2 ^ (-s).toNat
    ⟨rne num den, e - 52⟩

/-- Correctly rounded double multiplication: round the exact product. -/
def fmul (x y : Dy) : Dy := roundDy (x.m * y.m) (x.e + y.e)

/-- Correctly rounded double addition: align exponents exactly, add, round. -/
def fadd (x y : Dy) : Dy :=
  let e := min x.e y.e
  roundDy (x.m * 2 ^ (x.e - e).toNat + y.m * 2 ^ (y.e - e).toNat) e

/-- Conversion of a Python int to a double (exact below `2^53`, correctly
rounded above). -/
def intToDouble (n : ℤ) : Dy := roundDy n 0

/-- Python `int()` applied to a double: truncation toward zero. -/
def dyTrunc (x : Dy) : ℤ :=
  if 0 ≤ x.e then x.m * 2 ^ x.e.toNat
  else
    let d : ℤ := 2 ^ (-x.e).toNat
    if 0 ≤ x.m then x.m.ediv d else -((-x.m).ediv d)

/-- The double denoted by the literal `0.3`. -/
def c03 : Dy := ratToDouble 3 10

/-- The double denoted by the literal `0.6`. -/
def c06 : Dy := ratToDouble 3 5

/-- The double denoted by the literal `0.1`. -/
def c01 : Dy := ratToDouble 1 10

/-- The double denoted by the literal `0.4`. -/
def c04 : Dy := ratToDouble 2 5

/-- The brightness `pixel.red * 0.3 + pixel.green * 0.6 + pixel.blue * 0.1`
exactly as Python computes it: left-associated double arithmetic. -/
def brightness (p : Pixel) : Dy :=
  fadd (fadd (fmul (intToDouble p.red) c03) (fmul (intToDouble p.green) c06))
    (fmul (intToDouble p.blue) c01)

/-! ### The plugins -/

/-- Model of `mono` from `plugins.py`: assert `type(sepia) == bool`; then for
every position `(row, col)` of the `height x width` grid, read the pixel,
compute its brightness, and overwrite the colour channels (greyscale when
`sepia` is false, sepia tone when true); alpha is not written.  The in-place
per-pixel mutation loop is modelled as a map over the index grid (each
position is read before it is written, and written once). -/
def mono (image : Image) (sepia : PyVal) : Except Image (Image × Bool) :=
  if sepia.isBool then
    let height := image.length
    let w := width image
    let image2 := (List.range height).map (fun row =>
      (List.range w).map (fun col =>
        let pixel := get2 image row col
        let br := brightness pixel
        if sepia.getBool = false then
          { pixel with red := dyTrunc br, green := dyTrunc br, blue := dyTrunc br }
        else
          { pixel with red := dyTrunc br, green := dyTrunc (fmul c06 br),
                       blue := dyTrunc (fmul c04 br) }))
    .ok (image2, true)
  else .error image

/-- Model of `flip` from `plugins.py`: assert `type(vertical) == bool`; when
`vertical` is false reverse each row in place (the loop
`for col in range(height): image[col].reverse()`), when true reverse the row
order (`image.reverse()`). -/
def flip (image : Image) (vertical : PyVal) : Except Image (Image × Bool) :=
  if vertical.isBool then
    if vertical.getBool = false then .ok (image.map List.reverse, true)
    else .ok (image.reverse, true)
  else .error image

/-- Model of `dered` from `plugins.py`: for every position of the
`height x width` grid, set the pixel's red channel to 0. -/
def dered (image : Image) : Image × Bool :=
  let height := image.length
  let w := width image
  ((List.range height).map (fun row =>
    (List.range w).map (fun col =>
      let pixel := get2 image row col
      { pixel with red := 0 })), true)

/-- The transposed table built by `transpose`: for each column index `co` of
the original, the row `[image[ro][co] for ro in range(numrows)]`. -/
def transposeFun (image : Image) : Image :=
  let numrows := image.length
  let numcols := width image
  (List.range numcols).map (fun co =>
    (List.range numrows).map (fun ro => get2 image ro co))

/-- Model of `transpose` from `plugins.py`: build the transposed copy, then
clear the buffer and append its rows (in-place replacement of the contents,
modelled as state passing). -/
def transpose (image : Image) : Image × Bool := (transposeFun image, true)

/-- Model of `rotate` from `plugins.py`: assert `type(right) == bool`; rotate
left (`right` false) is `transpose(image)` followed by `image.reverse()`;
rotate right is `image.reverse()` followed by `transpose(image)`. -/
def rotate (image : Image) (right : PyVal) : Except Image (Image × Bool) :=
  if right.isBool then
    if right.getBool = false then
      .ok ((transpose image).1.reverse, true)
    else
      .ok ((transpose image.reverse).1, true)
  else .error image

/-- The lines printed by `display` (excluding the initial blank `print()`):
one line per pixel of the `height x width` grid, built from the pixel's
canonical string representation `reprP` (an external collaborator), padded so
the closing delimiters align, with the structural bracket markers of the
source. -/
def displayLines (reprP : Pixel → String) (image : Image) : List String :=
  let height := image.length
  let w := width image
  let maxsize := image.foldl (fun mx row =>
    row.foldl (fun mx pixel => max mx (reprP pixel).length) mx) 0
  ((List.range height).map (fun pos1 =>
    (List.range w).map (fun pos2 =>
      let pixel := get2 image pos1 pos2
      let middle := reprP pixel
      let padding := maxsize - middle.length
      let pre :=
        if pos1 = 0 ∧ pos2 = 0 then "[  [  "
        else if pos2 = 0 then "   [  "
        else "      "
      let suf :=
        if pos1 = height - 1 ∧ pos2 = w - 1 then
          String.mk (List.replicate padding ' ') ++ " ]  ]"
        else if pos2 = w - 1 then String.mk (List.replicate padding ' ') ++ " ],"
        else ","
      pre ++ middle ++ suf))).flatten

/-- Model of `display` from `plugins.py`: reads the buffer, prints a blank
line and then the pretty-printed pixels, and ends in a bare `return`, i.e. it
returns Python `None` (modelled as `Option.none`), not the boolean `False`
its docstring promises.  The buffer is only read, never written. -/
def display (reprP : Pixel → String) (image : Image) :
    Image × List String × Option Bool :=
  (image, "" :: displayLines reprP image, Option.none)

/-- A concrete 2 x 3 image with pairwise distinct channel values, used to
instantiate the universally quantified theorems. -/
def sampleImage : Image :=
  [[⟨1, 2, 3, 4⟩, ⟨5, 6, 7, 8⟩, ⟨9, 10, 11, 12⟩],
   [⟨13, 14, 15, 16⟩, ⟨17, 18, 19, 20⟩, ⟨21, 22, 23, 24⟩]]

/-! ### Basic list access lemmas -/

variable {α β : Type _}

lemma getD_range_map (f : ℕ → α) (n i : ℕ) (d : α) :
    ((List.range n).map f).getD i d = if i < n then f i else d := by
  by_cases h : i < n
  · simp [List.getD_eq_getElem?_getD, List.getElem?_range h, h]
  · have hlen : ((List.range n).map f).length ≤ i := by simpa using Nat.le_of_not_lt h
    simp [List.getD_eq_getElem?_getD, List.getElem?_eq_none hlen, h]

lemma getD_eq_getElem (l : List α) (d : α) {i : ℕ} (h : i < l.length) :
    l.getD i d = l.get ⟨i, h⟩ := by
  simp [List.getD_eq_getElem?_getD, List.getElem?_eq_getElem h]

lemma map_range_getD (l : List α) (d : α) :
    (List.range l.length).map (fun i => l.getD i d) = l := by
  apply List.ext_getElem (by simp)
  intro i h1 h2
  simp only [List.getElem_map, List.getElem_range]
  simp [List.getD_eq_getElem?_getD, List.getElem?_eq_getElem h2]

lemma getD_mem (l : List α) (d : α) {i : ℕ} (h : i < l.length) : l.getD i d ∈ l := by
  rw [getD_eq_getElem l d h]
  exact l.get_mem i h

lemma headD_eq_getD (l : List α) (d : α) : l.headD d = l.getD 0 d := by
  cases l <;> simp

lemma getD_reverse (l : List α) (d : α) {i : ℕ} (h : i < l.length) :
    l.reverse.getD i d = l.getD (l.length - 1 - i) d := by
  simp [List.getD_eq_getElem?_getD, List.getElem?_reverse h]

/-! ### Shape lemmas for the image model -/

lemma width_eq_getD (image : Image) : width image = (image.getD 0 []).length := by
  unfold width
  rw [headD_eq_getD]

lemma row_length (image : Image) (hR : Rect image) {i : ℕ} (h : i < image.length) :
    (image.getD i []).length = width image :=
  hR _ (getD_mem image [] h)

lemma width_map_reverse (image : Image) : width (image.map List.reverse) = width image := by
  cases image <;> simp [width]

lemma width_reverse (image : Image) (hR : Rect image) (hh : 0 < image.length) :
    width image.reverse = width image := by
  rw [width_eq_getD, getD_reverse _ _ (by simpa using hh)]
  exact row_length image hR (by omega)

lemma rect_map_reverse (image : Image) (hR : Rect image) : Rect (image.map List.reverse) := by
  intro row hrow
  rw [width_map_reverse]
  obtain ⟨r, hr, rfl⟩ := List.mem_map.mp hrow
  simpa using hR r hr

lemma rect_reverse (image : Image) (hR : Rect image) (hh : 0 < image.length) :
    Rect image.reverse := by
  intro row hrow
  rw [width_reverse image hR hh]
  exact hR row (List.mem_reverse.mp hrow)

lemma get2_reverse (image : Image) {i : ℕ} (j : ℕ) (hi : i < image.length) :
    get2 image.reverse i j = get2 image (image.length - 1 - i) j := by
  unfold get2
  rw [getD_reverse _ _ (by simpa using hi)]

lemma getD_map_reverse (image : Image) {i : ℕ} (hi : i < image.length) :
    (image.map List.reverse).getD i [] = (image.getD i []).reverse := by
  simp [List.getD_eq_getElem?_getD, List.getElem?_eq_getElem (by simpa using hi),
    List.getElem?_eq_getElem hi]

lemma get2_map_reverse (image : Image) (hR : Rect image) {i j : ℕ}
    (hi : i < image.length) (hj : j < width image) :
    get2 (image.map List.reverse) i j = get2 image i (width image - 1 - j) := by
  unfold get2
  rw [getD_map_reverse image hi, getD_reverse _ _ (by rw [row_length image hR hi]; exact hj),
    row_length image hR hi]

/-! ### Transpose lemmas -/

lemma transposeFun_def (image : Image) :
    transposeFun image = (List.range (width image)).map (fun co =>
      (List.range image.length).map (fun ro => get2 image ro co)) := rfl

lemma length_transposeFun (image : Image) :
    (transposeFun image).length = width image := by
  rw [transposeFun_def]; simp

lemma transposeFun_row (image : Image) {co : ℕ} (h : co < width image) :
    (transposeFun image).getD co [] =
      (List.range image.length).map (fun ro => get2 image ro co) := by
  rw [transposeFun_def, getD_range_map]
  simp [h]

lemma width_transposeFun (image : Image) (hw : 0 < width image) :
    width (transposeFun image) = image.length := by
  rw [width_eq_getD, transposeFun_row image hw]
  simp

lemma rect_transposeFun (image : Image) (hw : 0 < width image) :
    Rect (transposeFun image) := by
  intro row hrow
  rw [width_transposeFun image hw, transposeFun_def] at *
  obtain ⟨co, _, rfl⟩ := List.mem_map.mp hrow
  simp

lemma get2_transposeFun (image : Image) {i j : ℕ}
    (hi : i < width image) (hj : j < image.length) :
    get2 (transposeFun image) i j = get2 image j i := by
  unfold get2
  rw [transposeFun_row image hi, getD_range_map]
  simp [hj, get2]

lemma grid_eta (image : Image) (hR : Rect image) :
    (List.range image.length).map (fun ro =>
      (List.range (width image)).map (fun co => get2 image ro co)) = image := by
  apply List.ext_getElem (by simp)
  intro i h1 h2
  simp only [List.getElem_map, List.getElem_range]
  have hi : i < image.length := by simpa using h2
  have hrow : (image.getD i []).length = width image := row_length image hR hi
  have := map_range_getD (image.getD i []) default
  rw [hrow] at this
  calc (List.range (width image)).map (fun co => get2 image i co)
      = image.getD i [] := this
    _ = _ := by simp [List.getD_eq_getElem?_getD, List.getElem?_eq_getElem hi]

lemma length_pos_of_width_pos (image : Image) (hw : 0 < width image) :
    0 < image.length := by
  cases image with
  | nil => simp [width] at hw
  | cons a l => simp

lemma transposeFun_transposeFun (image : Image) (hR : Rect image)
    (hw : 0 < width image) :
    transposeFun (transposeFun image) = image := by
  rw [transposeFun_def (transposeFun image), width_transposeFun image hw,
    length_transposeFun]
  have hcong : ∀ co ∈ List.range image.length,
      (List.range (width image)).map (fun ro => get2 (transposeFun image) ro co)
        = (List.range (width image)).map (fun ro => get2 image co ro) := by
    intro co hco
    apply List.map_congr_left
    intro ro hro
    exact get2_transposeFun image (List.mem_range.mp hro) (List.mem_range.mp hco)
  rw [List.map_congr_left hcong]
  exact grid_eta image hR

lemma transposeFun_reverse (image : Image) (hR : Rect image) (hh : 0 < image.length) :
    transposeFun image.reverse = (transposeFun image).map List.reverse := by
  rw [transposeFun_def image.reverse, transposeFun_def image,
    width_reverse image hR hh, List.length_reverse, List.map_map]
  apply List.map_congr_left
  intro co hco
  apply List.ext_getElem (by simp)
  intro i h1 h2
  have hi : i < image.length := by simpa using h1
  simp only [Function.comp_apply]
  rw [List.getElem_reverse]
  simp only [List.getElem_map, List.getElem_range, List.length_map, List.length_range]
  exact get2_reverse image co hi

/-! ### Rotation algebra -/

lemma rotate_false_def (image : Image) :
    rotate image (.bool false) = .ok ((transposeFun image).reverse, true) := rfl

lemma rotate_true_def (image : Image) :
    rotate image (.bool true) = .ok (transposeFun image.reverse, true) := rfl

lemma rect_rotLeft (image : Image) (hw : 0 < width image) :
    Rect ((transposeFun image).reverse) :=
  rect_reverse _ (rect_transposeFun image hw)
    (by rw [length_transposeFun]; exact hw)

lemma rotLeft_rotLeft (image : Image) (hR : Rect image) (hw : 0 < width image) :
    (transposeFun ((transposeFun image).reverse)).reverse
      = (image.map List.reverse).reverse := by
  rw [transposeFun_reverse (transposeFun image) (rect_transposeFun image hw)
    (by rw [length_transposeFun]; exact hw)]
  rw [transposeFun_transposeFun image hR hw]

lemma rotRight_rotRight (image : Image) (hR : Rect image) (hw : 0 < width image) :
    transposeFun ((transposeFun image.reverse).reverse)
      = image.reverse.map List.reverse := by
  have hh := length_pos_of_width_pos image hw
  have hRrev := rect_reverse image hR hh
  have hwrev : 0 < width image.reverse := by rw [width_reverse image hR hh]; exact hw
  rw [transposeFun_reverse (transposeFun image.reverse)
    (rect_transposeFun image.reverse hwrev)
    (by rw [length_transposeFun]; exact hwrev)]
  rw [transposeFun_transposeFun image.reverse hRrev hwrev]

lemma map_reverse_map_reverse (image : Image) :
    (image.map List.reverse).map List.reverse = image := by
  rw [List.map_map]
  have : ∀ row ∈ image, (List.reverse ∘ List.reverse) row = id row := by
    intro row _
    simp
  rw [List.map_congr_left this, List.map_id]

/-! ### Multiset invariance lemmas -/

lemma flatten_perm_map_reverse (L : List (List α)) :
    (L.map List.reverse).flatten.Perm L.flatten := by
  induction L with
  | nil => simp
  | cons a l ih =>
    simp only [List.map_cons, List.flatten_cons]
    exact (List.reverse_perm a).append ih

lemma flatten_perm_reverse (L : List (List α)) :
    L.reverse.flatten.Perm L.flatten := by
  induction L with
  | nil => simp
  | cons a l ih =>
    simp only [List.reverse_cons, List.flatten_append, List.flatten_cons,
      List.flatten_nil, List.append_nil]
    exact (ih.append (List.Perm.refl a)).trans List.perm_append_comm

lemma coe_flatten (L : List (List α)) :
    ((L.flatten : List α) : Multiset α) = (L.map Multiset.ofList).sum := by
  induction L with
  | nil => simp
  | cons a l ih =>
    simp only [List.flatten_cons, List.map_cons, List.sum_cons]
    rw [← Multiset.coe_add, ih]

lemma coe_eq_sum_singleton (l : List α) :
    (l : Multiset α) = (l.map (fun a => ({a} : Multiset α))).sum := by
  induction l with
  | nil => simp
  | cons a t ih =>
    simp only [List.map_cons, List.sum_cons]
    rw [← Multiset.cons_coe, ← Multiset.singleton_add, ih]

lemma sum_map_range (f : ℕ → Multiset α) (n : ℕ) :
    ((List.range n).map f).sum = ∑ i in Finset.range n, f i := by
  induction n with
  | zero => simp
  | succ n ih =>
    rw [List.range_succ, List.map_append, List.sum_append, Finset.sum_range_succ, ih]
    simp

lemma flatten_coe_grid (h w : ℕ) (f : ℕ → ℕ → Pixel) :
    ((((List.range h).map (fun i => (List.range w).map (fun j => f i j))).flatten :
        List Pixel) : Multiset Pixel)
      = ∑ i in Finset.range h, ∑ j in Finset.range w, ({f i j} : Multiset Pixel) := by
  rw [coe_flatten, List.map_map, ← sum_map_range]
  congr 1
  apply List.map_congr_left
  intro i _
  simp only [Function.comp_apply]
  rw [coe_eq_sum_singleton, List.map_map, ← sum_map_range]
  rfl

lemma transposeFun_flatten_perm (image : Image) (hR : Rect image) :
    (transposeFun image).flatten.Perm image.flatten := by
  rw [← Multiset.coe_eq_coe]
  conv_rhs => rw [← grid_eta image hR]
  rw [transposeFun_def, flatten_coe_grid, flatten_coe_grid]
  exact Finset.sum_comm

/-! ### The claims -/

/-- C1: for every non-empty rectangular image buffer of height R and width C,
after `transpose` the buffer has height C (as many rows as the old width) and
width R (every row as long as the old height), the pixel at new position
`(i, j)` is the pixel previously at `(j, i)`, and the call reports
"image modified" = true.  (The in-place clear-and-repopulate of the same
buffer object is what the state-passing embedding models.) -/
theorem transpose_spec (image : Image) (_hR : Rect image)
    (_hh : 0 < image.length) (hw : 0 < width image) :
    (transpose image).2 = true ∧
    (transpose image).1.length = width image ∧
    (∀ row ∈ (transpose image).1, row.length = image.length) ∧
    ∀ i j, i < width image → j < image.length →
      get2 (transpose image).1 i j = get2 image j i := by
  refine ⟨rfl, length_transposeFun image, ?_, ?_⟩
  · intro row hrow
    have h := rect_transposeFun image hw row hrow
    rwa [width_transposeFun image hw] at h
  · intro i j hi hj
    exact get2_transposeFun image hi hj

/-- C1 witness: the theorem instantiated at the concrete 2 x 3 image. -/
theorem transpose_spec_witness :
    (Rect sampleImage ∧ 0 < sampleImage.length ∧ 0 < width sampleImage) ∧
    ((transpose sampleImage).2 = true ∧
      (transpose sampleImage).1.length = width sampleImage ∧
      (∀ row ∈ (transpose sampleImage).1, row.length = sampleImage.length) ∧
      ∀ i j, i < width sampleImage → j < sampleImage.length →
        get2 (transpose sampleImage).1 i j = get2 sampleImage j i) :=
  ⟨⟨by decide, by decide, by decide⟩,
    transpose_spec sampleImage (by decide) (by decide) (by decide)⟩

/-- C3: `rotate(image, right=False)` is exactly `transpose(image)` followed by
reversing the order of the buffer's rows, and `rotate(image, right=True)` is
exactly reversing the order of the rows followed by `transpose`; both calls
report "image modified" = true. -/
theorem rotate_decomposition (image : Image) :
    rotate image (.bool false) = .ok ((transpose image).1.reverse, true) ∧
    rotate image (.bool true) = .ok ((transpose image.reverse).1, true) :=
  ⟨rfl, rfl⟩

/-- C4: `flip(image, vertical=False)` reverses the pixel order within each row
independently (row count and each row's length unchanged, pixel `(i, j)` moves
to `(i, C-1-j)`), and `flip(image, vertical=True)` reverses the order of the
rows while leaving each row untouched (pixel `(i, j)` moves to `(R-1-i, j)`);
each call takes exactly one of the two branches and returns true. -/
theorem flip_spec (image : Image) (hR : Rect image)
    (_hh : 0 < image.length) (_hw : 0 < width image) :
    (flip image (.bool false) = .ok (image.map List.reverse, true) ∧
      (image.map List.reverse).length = image.length ∧
      (∀ i, i < image.length →
        ((image.map List.reverse).getD i []).length = (image.getD i []).length) ∧
      (∀ i j, i < image.length → j < width image →
        get2 (image.map List.reverse) i j = get2 image i (width image - 1 - j))) ∧
    (flip image (.bool true) = .ok (image.reverse, true) ∧
      image.reverse.length = image.length ∧
      (∀ i j, i < image.length → j < width image →
        get2 image.reverse i j = get2 image (image.length - 1 - i) j)) := by
  refine ⟨⟨rfl, by simp, ?_, ?_⟩, ⟨rfl, by simp, ?_⟩⟩
  · intro i hi
    rw [getD_map_reverse image hi]
    simp
  · intro i j hi hj
    exact get2_map_reverse image hR hi hj
  · intro i j hi _
    exact get2_reverse image j hi

/-- C4 witness: the theorem instantiated at the concrete 2 x 3 image. -/
theorem flip_spec_witness :
    (Rect sampleImage ∧ 0 < sampleImage.length ∧ 0 < width sampleImage) ∧
    ((flip sampleImage (.bool false) = .ok (sampleImage.map List.reverse, true) ∧
      (sampleImage.map List.reverse).length = sampleImage.length ∧
      (∀ i, i < sampleImage.length →
        ((sampleImage.map List.reverse).getD i []).length = (sampleImage.getD i []).length) ∧
      (∀ i j, i < sampleImage.length → j < width sampleImage →
        get2 (sampleImage.map List.reverse) i j
          = get2 sampleImage i (width sampleImage - 1 - j))) ∧
    (flip sampleImage (.bool true) = .ok (sampleImage.reverse, true) ∧
      sampleImage.reverse.length = sampleImage.length ∧
      (∀ i j, i < sampleImage.length → j < width sampleImage →
        get2 sampleImage.reverse i j = get2 sampleImage (sampleImage.length - 1 - i) j))) :=
  ⟨⟨by decide, by decide, by decide⟩,
    flip_spec sampleImage (by decide) (by decide) (by decide)⟩

/-- C8: applying `transpose` twice in succession restores the original buffer
(shape and pixel arrangement): transpose is an involution on non-empty
rectangular images. -/
theorem transpose_involution (image : Image) (hR : Rect image)
    (_hh : 0 < image.length) (hw : 0 < width image) :
    (transpose (transpose image).1).1 = image :=
  transposeFun_transposeFun image hR hw

/-- C8 witness: the theorem instantiated at the concrete 2 x 3 image. -/
theorem transpose_involution_witness :
    (Rect sampleImage ∧ 0 < sampleImage.length ∧ 0 < width sampleImage) ∧
    (transpose (transpose sampleImage).1).1 = sampleImage :=
  ⟨⟨by decide, by decide, by decide⟩,
    transpose_involution sampleImage (by decide) (by decide) (by decide)⟩

/-- C9: four successive left rotations restore the original image, and so do
four successive right rotations (each step is the `rotate` plugin threaded
through its returned buffer). -/
theorem rotate_four_identity (image : Image) (hR : Rect image)
    (_hh : 0 < image.length) (hw : 0 < width image) :
    ((rotate image (.bool false)).bind (fun p => (rotate p.1 (.bool false)).bind
      (fun q => (rotate q.1 (.bool false)).bind (fun r => rotate r.1 (.bool false))))
        = .ok (image, true)) ∧
    ((rotate image (.bool true)).bind (fun p => (rotate p.1 (.bool true)).bind
      (fun q => (rotate q.1 (.bool true)).bind (fun r => rotate r.1 (.bool true))))
        = .ok (image, true)) := by
  have hh := length_pos_of_width_pos image hw
  constructor
  · have hRz : Rect ((image.map List.reverse).reverse) :=
      rect_reverse _ (rect_map_reverse image hR) (by simpa using hh)
    have hwz : 0 < width ((image.map List.reverse).reverse) := by
      rw [width_reverse _ (rect_map_reverse image hR) (by simpa using hh),
        width_map_reverse]
      exact hw
    have h4 : (transposeFun ((transposeFun ((transposeFun
        ((transposeFun image).reverse)).reverse)).reverse)).reverse = image := by
      rw [rotLeft_rotLeft image hR hw, rotLeft_rotLeft _ hRz hwz,
        List.map_reverse, map_reverse_map_reverse, List.reverse_reverse]
    exact congrArg (fun z => (Except.ok (z, true) : Except Image (Image × Bool))) h4
  · have hRy : Rect (image.reverse.map List.reverse) :=
      rect_map_reverse _ (rect_reverse image hR hh)
    have hwy : 0 < width (image.reverse.map List.reverse) := by
      rw [width_map_reverse, width_reverse image hR hh]
      exact hw
    have h4 : transposeFun ((transposeFun ((transposeFun
        ((transposeFun image.reverse).reverse)).reverse)).reverse) = image := by
      rw [rotRight_rotRight image hR hw, rotRight_rotRight _ hRy hwy,
        List.map_reverse, map_reverse_map_reverse, List.reverse_reverse]
    exact congrArg (fun z => (Except.ok (z, true) : Except Image (Image × Bool))) h4

/-- C9 witness: the theorem instantiated at the concrete 2 x 3 image. -/
theorem rotate_four_identity_witness :
    (Rect sampleImage ∧ 0 < sampleImage.length ∧ 0 < width sampleImage) ∧
    (((rotate sampleImage (.bool false)).bind (fun p => (rotate p.1 (.bool false)).bind
      (fun q => (rotate q.1 (.bool false)).bind (fun r => rotate r.1 (.bool false))))
        = .ok (sampleImage, true)) ∧
    ((rotate sampleImage (.bool true)).bind (fun p => (rotate p.1 (.bool true)).bind
      (fun q => (rotate q.1 (.bool true)).bind (fun r => rotate r.1 (.bool true))))
        = .ok (sampleImage, true))) :=
  ⟨⟨by decide, by decide, by decide⟩,
    rotate_four_identity sampleImage (by decide) (by decide) (by decide)⟩

/-- C6: after `dered` the buffer has the same shape (row count and row
lengths), every pixel's red channel is exactly 0 while its green, blue and
alpha channels are unchanged, and the call returns true. -/
theorem dered_spec (image : Image) (hR : Rect image)
    (_hh : 0 < image.length) (_hw : 0 < width image) :
    (dered image).2 = true ∧
    (dered image).1.length = image.length ∧
    (∀ i, i < image.length →
      ((dered image).1.getD i []).length = (image.getD i []).length) ∧
    (∀ i j, i < image.length → j < width image →
      get2 (dered image).1 i j =
        { red := 0, green := (get2 image i j).green, blue := (get2 image i j).blue,
          alpha := (get2 image i j).alpha }) := by
  have hdef : (dered image).1 = (List.range image.length).map (fun row =>
      (List.range (width image)).map (fun col =>
        { get2 image row col with red := 0 })) := rfl
  refine ⟨rfl, ?_, ?_, ?_⟩
  · rw [hdef]; simp
  · intro i hi
    rw [hdef, getD_range_map, if_pos hi, List.length_map, List.length_range,
      row_length image hR hi]
  · intro i j hi hj
    simp only [get2] at *
    rw [hdef, getD_range_map, if_pos hi, getD_range_map, if_pos hj]

/-- C6 witness: the theorem instantiated at the concrete 2 x 3 image. -/
theorem dered_spec_witness :
    (Rect sampleImage ∧ 0 < sampleImage.length ∧ 0 < width sampleImage) ∧
    ((dered sampleImage).2 = true ∧
      (dered sampleImage).1.length = sampleImage.length ∧
      (∀ i, i < sampleImage.length →
        ((dered sampleImage).1.getD i []).length = (sampleImage.getD i []).length) ∧
      (∀ i j, i < sampleImage.length → j < width sampleImage →
        get2 (dered sampleImage).1 i j =
          { red := 0, green := (get2 sampleImage i j).green,
            blue := (get2 sampleImage i j).blue,
            alpha := (get2 sampleImage i j).alpha })) :=
  ⟨⟨by decide, by decide, by decide⟩,
    dered_spec sampleImage (by decide) (by decide) (by decide)⟩

/-- C2 counterexample: the claim says greyscale `mono` sets
red = green = blue = floor(0.3*r + 0.6*g + 0.1*b) with exact arithmetic.  At
the pixel (r, g, b) = (0, 3, 2) the exact brightness is exactly 2 (so the
claimed value is 2), but Python evaluates `0*0.3 + 3*0.6 + 2*0.1` in double
precision to 1.9999999999999998, and `int()` truncates it to 1. -/
theorem mono_exact_floor_counterexample :
    mono [[⟨0, 3, 2, 7⟩]] (.bool false) = .ok ([[⟨1, 1, 1, 7⟩]], true) ∧
    (3 : ℚ) / 10 * 0 + 6 / 10 * 3 + 1 / 10 * 2 = 2 ∧ (1 : ℤ) ≠ 2 := by
  refine ⟨?_, by norm_num, by decide⟩
  rfl

/-- C2 (amended): greyscale `mono` sets red = green = blue to the truncation
of the brightness as computed in IEEE-754 double precision (not the exact
floor), sepia `mono` sets red, green, blue to the truncations of `brightness`,
`0.6*brightness`, `0.4*brightness` in double precision; in both modes the
shape is preserved, every pixel's alpha is unchanged, and the call returns
true. -/
theorem mono_float_spec (image : Image) (hR : Rect image)
    (_hh : 0 < image.length) (_hw : 0 < width image) :
    (∃ res, mono image (.bool false) = .ok res ∧
      res.2 = true ∧
      res.1.length = image.length ∧
      (∀ i, i < image.length → (res.1.getD i []).length = (image.getD i []).length) ∧
      (∀ i j, i < image.length → j < width image →
        get2 res.1 i j =
          { red := dyTrunc (brightness (get2 image i j)),
            green := dyTrunc (brightness (get2 image i j)),
            blue := dyTrunc (brightness (get2 image i j)),
            alpha := (get2 image i j).alpha })) ∧
    (∃ res, mono image (.bool true) = .ok res ∧
      res.2 = true ∧
      res.1.length = image.length ∧
      (∀ i, i < image.length → (res.1.getD i []).length = (image.getD i []).length) ∧
      (∀ i j, i < image.length → j < width image →
        get2 res.1 i j =
          { red := dyTrunc (brightness (get2 image i j)),
            green := dyTrunc (fmul c06 (brightness (get2 image i j))),
            blue := dyTrunc (fmul c04 (brightness (get2 image i j))),
            alpha := (get2 image i j).alpha })) := by
  constructor
  · refine ⟨((List.range image.length).map (fun row =>
      (List.range (width image)).map (fun col =>
        { get2 image row col with
            red := dyTrunc (brightness (get2 image row col)),
            green := dyTrunc (brightness (get2 image row col)),
            blue := dyTrunc (brightness (get2 image row col)) })), true),
      rfl, rfl, by simp, ?_, ?_⟩
    · intro i hi
      rw [getD_range_map, if_pos hi, List.length_map, List.length_range,
        row_length image hR hi]
    · intro i j hi hj
      simp only [get2]
      rw [getD_range_map, if_pos hi, getD_range_map, if_pos hj]
  · refine ⟨((List.range image.length).map (fun row =>
      (List.range (width image)).map (fun col =>
        { get2 image row col with
            red := dyTrunc (brightness (get2 image row col)),
            green := dyTrunc (fmul c06 (brightness (get2 image row col))),
            blue := dyTrunc (fmul c04 (brightness (get2 image row col))) })), true),
      rfl, rfl, by simp, ?_, ?_⟩
    · intro i hi
      rw [getD_range_map, if_pos hi, List.length_map, List.length_range,
        row_length image hR hi]
    · intro i j hi hj
      simp only [get2]
      rw [getD_range_map, if_pos hi, getD_range_map, if_pos hj]

/-- C2 witness: the amended theorem instantiated at the concrete 2 x 3
image. -/
theorem mono_float_spec_witness :
    (Rect sampleImage ∧ 0 < sampleImage.length ∧ 0 < width sampleImage) ∧
    ((∃ res, mono sampleImage (.bool false) = .ok res ∧
      res.2 = true ∧
      res.1.length = sampleImage.length ∧
      (∀ i, i < sampleImage.length →
        (res.1.getD i []).length = (sampleImage.getD i []).length) ∧
      (∀ i j, i < sampleImage.length → j < width sampleImage →
        get2 res.1 i j =
          { red := dyTrunc (brightness (get2 sampleImage i j)),
            green := dyTrunc (brightness (get2 sampleImage i j)),
            blue := dyTrunc (brightness (get2 sampleImage i j)),
            alpha := (get2 sampleImage i j).alpha })) ∧
    (∃ res, mono sampleImage (.bool true) = .ok res ∧
      res.2 = true ∧
      res.1.length = sampleImage.length ∧
      (∀ i, i < sampleImage.length →
        (res.1.getD i []).length = (sampleImage.getD i []).length) ∧
      (∀ i j, i < sampleImage.length → j < width sampleImage →
        get2 res.1 i j =
          { red := dyTrunc (brightness (get2 sampleImage i j)),
            green := dyTrunc (fmul c06 (brightness (get2 sampleImage i j))),
            blue := dyTrunc (fmul c04 (brightness (get2 sampleImage i j))),
            alpha := (get2 sampleImage i j).alpha }))) :=
  ⟨⟨by decide, by decide, by decide⟩,
    mono_float_spec sampleImage (by decide) (by decide) (by decide)⟩

/-- C7: passing a non-boolean value for `sepia`, `vertical` or `right` makes
`mono`, `flip` and `rotate` abort on the `assert type(...) == bool` check
before any mutation, leaving the buffer exactly as it was (the `.error` value
carries the buffer state at the abort, which is the input buffer). -/
theorem bad_flag_aborts_unchanged (image : Image) (v : PyVal)
    (h : v.isBool = false) :
    mono image v = .error image ∧ flip image v = .error image ∧
    rotate image v = .error image := by
  unfold mono flip rotate
  simp [h]

/-- C7 witness: the theorem instantiated at a 1 x 1 image and the non-boolean
argument `3`. -/
theorem bad_flag_aborts_unchanged_witness :
    PyVal.isBool (.int 3) = false ∧
    (mono [[⟨1, 2, 3, 4⟩]] (.int 3) = .error [[⟨1, 2, 3, 4⟩]] ∧
      flip [[⟨1, 2, 3, 4⟩]] (.int 3) = .error [[⟨1, 2, 3, 4⟩]] ∧
      rotate [[⟨1, 2, 3, 4⟩]] (.int 3) = .error [[⟨1, 2, 3, 4⟩]]) :=
  ⟨by decide, bad_flag_aborts_unchanged [[⟨1, 2, 3, 4⟩]] (.int 3) (by decide)⟩

/-- C5: `display` leaves the buffer entirely unchanged, but its bare `return`
yields Python `None`, not the boolean `False` claimed by the spec and by its
own docstring ("Returns False after pretty printing the image pixels"). -/
theorem display_returns_none (reprP : Pixel → String) (image : Image) :
    (display reprP image).1 = image ∧
    (display reprP image).2.2 = Option.none ∧
    (Option.none : Option Bool) ≠ some false :=
  ⟨rfl, rfl, by decide⟩

/-- C10: `flip` (either mode), `transpose` and `rotate` (either mode) only
relocate pixels: the multiset of pixel values held by the buffer is invariant
under all three, so every pixel's channel values are preserved. -/
theorem relocation_multiset_invariant (image : Image) (b : Bool) (hR : Rect image)
    (_hh : 0 < image.length) (hw : 0 < width image) :
    ((flip image (.bool b)).map (fun p => ((p.1.flatten : List Pixel) : Multiset Pixel))
        = .ok ((image.flatten : List Pixel) : Multiset Pixel)) ∧
    (((transpose image).1.flatten : List Pixel) : Multiset Pixel)
        = ((image.flatten : List Pixel) : Multiset Pixel) ∧
    ((rotate image (.bool b)).map (fun p => ((p.1.flatten : List Pixel) : Multiset Pixel))
        = .ok ((image.flatten : List Pixel) : Multiset Pixel)) := by
  have hh := length_pos_of_width_pos image hw
  refine ⟨?_, ?_, ?_⟩
  · cases b
    · exact congrArg Except.ok (Multiset.coe_eq_coe.mpr (flatten_perm_map_reverse image))
    · exact congrArg Except.ok (Multiset.coe_eq_coe.mpr (flatten_perm_reverse image))
  · exact Multiset.coe_eq_coe.mpr (transposeFun_flatten_perm image hR)
  · cases b
    · exact congrArg Except.ok (Multiset.coe_eq_coe.mpr
        ((flatten_perm_reverse (transposeFun image)).trans
          (transposeFun_flatten_perm image hR)))
    · exact congrArg Except.ok (Multiset.coe_eq_coe.mpr
        ((transposeFun_flatten_perm image.reverse (rect_reverse image hR hh)).trans
          (flatten_perm_reverse image)))

/-- C10 witness: the theorem instantiated at the concrete 2 x 3 image with
flag value true. -/
theorem relocation_multiset_invariant_witness :
    (Rect sampleImage ∧ 0 < sampleImage.length ∧ 0 < width sampleImage) ∧
    (((flip sampleImage (.bool true)).map
        (fun p => ((p.1.flatten : List Pixel) : Multiset Pixel))
        = .ok ((sampleImage.flatten : List Pixel) : Multiset Pixel)) ∧
    (((transpose sampleImage).1.flatten : List Pixel) : Multiset Pixel)
        = ((sampleImage.flatten : List Pixel) : Multiset Pixel) ∧
    ((rotate sampleImage (.bool true)).map
        (fun p => ((p.1.flatten : List Pixel) : Multiset Pixel))
        = .ok ((sampleImage.flatten : List Pixel) : Multiset Pixel))) :=
  ⟨⟨by decide, by decide, by decide⟩,
    relocation_multiset_invariant sampleImage true (by decide) (by decide) (by decide)⟩

end Pictool
